import Mathlib

/-!
Verification development for the jenkobs reactor (src/reactor/reactor.go).

The Go code is shallowly embedded: dynamically typed YAML-decoded values
become the inductive `GoVal`; the unchecked Go type assertions
(`x.(string)`, `x.(map[interface{}]interface{})`) become functions into
`Except GoFault _`, where `GoFault.typeAssertion` models a runtime panic;
a Go map lookup of a missing key yields the zero-value interface,
modelled by `GoVal.nil`.  Network outcomes (dial, channel, declare,
bind, consume registration) are abstracted as boolean fields of
`AmqpNet`, and non-termination of a function is modelled by an explicit
behaviour constructor.
-/

namespace JenkobsReactor

/-- A dynamically typed value as produced by yaml.Unmarshal into
`interface\x7b\x7d`: strings, integers, booleans, the nil interface (also the
result of looking up a missing map key), and maps with dynamic keys. -/
inductive GoVal where
  | str (s : String)
  | int (n : Int)
  | bool (b : Bool)
  | nil
  | map (entries : List (GoVal × GoVal))

/-- A Go runtime panic raised by a failed unchecked type assertion. -/
inductive GoFault where
  | typeAssertion
  deriving DecidableEq

/-- Go interface equality of a dynamic map key against a string key:
only a string with the same contents compares equal. -/
def keyIs (k : GoVal) (s : String) : Bool :=
  match k with
  | .str t => t = s
  | _ => false

/-- Go map indexing `m[k]` for a string key `k` on a
`map[interface\x7b\x7d]interface\x7b\x7d`: the value of the first matching key,
or the nil interface when the key is absent. -/
def lookupGo (m : List (GoVal × GoVal)) (k : String) : GoVal :=
  match m with
  | [] => .nil
  | (kk, vv) :: rest => if keyIs kk k then vv else lookupGo rest k

/-- The unchecked type assertion `v.(string)`: panics unless `v` holds a
string. -/
def assertStr (v : GoVal) : Except GoFault String :=
  match v with
  | .str s => .ok s
  | _ => .error .typeAssertion

/-- The unchecked type assertion `v.(map[interface\x7b\x7d]interface\x7b\x7d)`:
panics unless `v` holds a map. -/
def assertMap (v : GoVal) : Except GoFault (List (GoVal × GoVal)) :=
  match v with
  | .map m => .ok m
  | _ => .error .typeAssertion

/-- Go map assignment `params[k] = v` on a `map[string]string`, modelled
on an association list: overwrite the existing binding or append. -/
def putParam (ps : List (String × String)) (k v : String) : List (String × String) :=
  if ps.any (fun p => p.1 = k) then
    ps.map (fun p => if p.1 = k then (k, v) else p)
  else
    ps ++ [(k, v)]

/-- The `ActionInfo` record, field names as in the struct literal in
`getAction` (reactor.go lines 109-116). -/
structure ActionInfo where
  Project : String
  Package : String
  Status : String
  Architecture : String
  Params : List (String × String)
  «Type» : String
  deriving DecidableEq

/-- The loop over the nested action map (reactor.go lines 99-107):
`actionType` starts as the empty string and is overwritten by each pair
whose key is "type"; every other pair is asserted to strings and stored
into `params`.  Each key and each value undergoes an unchecked string
assertion, so any non-string key or value panics. -/
def foldActionMap (am : List (GoVal × GoVal)) (ty : String)
    (ps : List (String × String)) : Except GoFault (String × List (String × String)) :=
  match am with
  | [] => .ok (ty, ps)
  | (pk, pv) :: rest =>
    match assertStr pk with
    | .error f => .error f
    | .ok spkey =>
      match assertStr pv with
      | .error f => .error f
      | .ok sval =>
        if spkey = "type" then foldActionMap rest sval ps
        else foldActionMap rest ty (putParam ps spkey sval)

/-- `getAction` (reactor.go lines 93-126).  The Go `for key, data :=
range actionSet` body returns on its first iteration in every branch, so
only the first key of the entry is ever examined; an empty entry falls
through to `return nil`.  Assertion order follows the source: the entry
value to a map, then `actionData["action"]` to a map, then the nested
action-map loop, then `package`, `status`, `arch` to strings (struct
literal field order), and finally the empty-type check. -/
def getAction (actionSet : List (String × GoVal)) : Except GoFault (Option ActionInfo) :=
  match actionSet with
  | [] => .ok none
  | (key, data) :: _ =>
    match assertMap data with
    | .error f => .error f
    | .ok actionData =>
      match assertMap (lookupGo actionData "action") with
      | .error f => .error f
      | .ok actionMap =>
        match foldActionMap actionMap "" [] with
        | .error f => .error f
        | .ok (actionType, params) =>
          match assertStr (lookupGo actionData "package") with
          | .error f => .error f
          | .ok pkg =>
            match assertStr (lookupGo actionData "status") with
            | .error f => .error f
            | .ok status =>
              match assertStr (lookupGo actionData "arch") with
              | .error f => .error f
              | .ok arch =>
                if actionType = "" then .ok none
                else .ok (some ⟨key, pkg, status, arch, params, actionType⟩)

/-- Modelled from the spec: the constant `ACTION_TYPE_CI` is declared
outside src/; the spec fixes the recognized networked-call type tag to
"ci-call". -/
def ACTION_TYPE_CI : String := "ci-call"

/-- Modelled from the spec: the constant `ACTION_TYPE_SHELL` is declared
outside src/; the spec fixes the recognized local-command type tag to
"shell". -/
def ACTION_TYPE_SHELL : String := "shell"

/-- Modelled from the spec: which concrete Action variant was
instantiated (`NewHTTPAction` / `NewShellAction` are declared outside
src/). -/
inductive ActionKind where
  | http
  | shell
  deriving DecidableEq

/-- A successfully loaded Action: the variant kind plus the bound
`ActionInfo` (per the spec, `load(ActionInfo)` binds the criteria once). -/
structure LoadedAction where
  kind : ActionKind
  info : ActionInfo
  deriving DecidableEq

/-- The loading loop of `LoadActions` (reactor.go lines 140-161):
for each decoded entry, `getAction`; a nil result is skipped; otherwise
the switch on `action.«Type»` appends an HTTP or Shell action and
increments `loaded`, and an unknown type only logs an error.  A panic in
`getAction` aborts the whole loop. -/
def processEntries (entries : List (List (String × GoVal))) (loaded : Nat)
    (acts : List LoadedAction) : Except GoFault (Nat × List LoadedAction) :=
  match entries with
  | [] => .ok (loaded, acts)
  | entry :: rest =>
    match getAction entry with
    | .error f => .error f
    | .ok none => processEntries rest loaded acts
    | .ok (some action) =>
      if action.«Type» = ACTION_TYPE_CI then
        processEntries rest (loaded + 1) (acts ++ [⟨ActionKind.http, action⟩])
      else if action.«Type» = ACTION_TYPE_SHELL then
        processEntries rest (loaded + 1) (acts ++ [⟨ActionKind.shell, action⟩])
      else
        processEntries rest loaded acts

/-- Outcome of yaml.Unmarshal (reactor.go line 137): `err` records
whether a non-nil error was returned, `data` the contents of the target
slice afterwards (possibly empty or partially decoded on error). -/
structure UnmarshalResult where
  err : Bool
  data : List (List (String × GoVal))

/-- The observable result of `LoadActions` (reactor.go lines 129-163). -/
inductive LoadResult where
  | exited
  | panicked (f : GoFault)
  | done (loaded : Nat) (actions : List LoadedAction)
  deriving DecidableEq

/-- `LoadActions` (reactor.go lines 129-163).  `none` models a ReadFile
error, on which the code calls os.Exit(1).  When the file is read, the
yaml.Unmarshal error is only logged (line 138) — there is no exit and no
early return — and the loop runs over whatever `data` holds, so the
result does not depend on `u.err`. -/
def loadActions (readResult : Option UnmarshalResult) : LoadResult :=
  match readResult with
  | none => .exited
  | some u =>
    match processEntries u.data 0 [] with
    | .error f => .panicked f
    | .ok (n, acts) => .done n acts

/-- Abstracted outcomes of the AMQP library calls made during connect
and consume: each field tells whether the corresponding call succeeds. -/
structure AmqpNet where
  dialOk : Bool
  channelOk : Bool
  exchangeOk : Bool
  queueOk : Bool
  bindOk : Bool
  consumeOk : Bool
  deriving DecidableEq

/-- The errors `connectAMQP` can return, one per early-return site. -/
inductive ConnectErr where
  | missingCredentials
  | dialFailure
  | exchangeFailure
  | queueFailure
  | bindFailure
  deriving DecidableEq

/-- Result of `connectAMQP`: success, a returned error, or a runtime
panic.  The panic case arises because the error of `rtr.conn.Channel()`
(line 65) is immediately overwritten without being checked; on a failed
Channel() call, `rtr.channel` is nil and the following
`ExchangeDeclarePassive` dereferences a nil pointer. -/
inductive ConnectResult where
  | ok
  | err (e : ConnectErr)
  | panicked
  deriving DecidableEq

/-- What `connectAMQP` did: its result, and whether `amqp.Dial` was
reached (i.e. whether any network I/O was attempted). -/
structure ConnectTrace where
  result : ConnectResult
  dialAttempted : Bool
  deriving DecidableEq

/-- `connectAMQP` (reactor.go lines 43-91): empty user or FQDN returns
an error before `amqp.Dial` is called; then dial, channel creation,
passive exchange declare, queue declare and queue bind each
short-circuit with an error (the channel-creation failure with a nil
dereference panic, see `ConnectResult`). -/
def connectAMQP (user fqdn : String) (net : AmqpNet) : ConnectTrace :=
  if user = "" ∨ fqdn = "" then ⟨.err .missingCredentials, false⟩
  else if net.dialOk = false then ⟨.err .dialFailure, true⟩
  else if net.channelOk = false then ⟨.panicked, true⟩
  else if net.exchangeOk = false then ⟨.err .exchangeFailure, true⟩
  else if net.queueOk = false then ⟨.err .queueFailure, true⟩
  else if net.bindOk = false then ⟨.err .bindFailure, true⟩
  else ⟨.ok, true⟩

/-- One delivery from the bus: opaque body plus routing metadata. -/
structure Delivery where
  routingKey : String
  body : String
  deriving DecidableEq

/-- Modelled from the spec: the `ReactorAction` interface is declared
outside src/; from its uses in src/ it carries the bound `ActionInfo`
(`GetAction`) and the `OnMessage` handler evaluated against a delivery.
The handler result type is opaque to the dispatch loop. -/
structure ReactorAction where
  info : ActionInfo
  onMessage : Delivery → Bool

/-- `onDelivery` (reactor.go lines 166-172): for each loaded action, in
order, spawn one goroutine `go action.OnMessage(&delivery)`.  The spawn
trace pairs each action with the one shared delivery of this call; no
handler is evaluated by the loop itself (the pairs are unapplied
calls). -/
def onDelivery (actions : List ReactorAction) (delivery : Delivery) :
    List (ReactorAction × Delivery) :=
  actions.map (fun a => (a, delivery))

/-- The inner consuming goroutine (reactor.go lines 181-186): one
`onDelivery` spawn per received delivery, in stream order; the range
loop exits when the delivery channel closes, so the trace is exactly as
long as the stream. -/
def dispatchTrace (actions : List ReactorAction) (deliveries : List Delivery) :
    List (List (ReactorAction × Delivery)) :=
  deliveries.map (onDelivery actions)

/-- Observable behaviour of `consume` (reactor.go lines 174-190). -/
inductive ConsumeBehavior where
  | returnsErr
  | blocksForever
  deriving DecidableEq

/-- `consume` (reactor.go lines 174-190): if the Consume registration
call fails, the error is returned at once.  Otherwise the function
receives from `looper`, a channel created at line 179 whose only other
occurrence in the whole program is that receive — nothing ever sends on
it or closes it — so the receive never completes and `consume` never
returns, regardless of the delivery stream (which is consumed by the
separate inner goroutine, see `dispatchTrace`). -/
def consume (net : AmqpNet) (_deliveries : List Delivery) : ConsumeBehavior :=
  if net.consumeOk = false then .returnsErr else .blocksForever

/-- An error value as seen by `Run`: the connect error or the consume
registration error. -/
inductive GoError where
  | connectError (e : ConnectErr)
  | consumeError
  deriving DecidableEq

/-- Observable behaviour of `Run`: it returns carrying a value (`none`
is Go nil), blocks forever, or panics. -/
inductive RunBehavior where
  | returns (retval : Option GoError)
  | blocksForever
  | panicked
  deriving DecidableEq

/-- What a `Run` execution did: its behaviour plus whether the consume
loop was entered. -/
structure RunTrace where
  behavior : RunBehavior
  enteredConsume : Bool
  deriving DecidableEq

/-- `Run` (reactor.go lines 193-202): on a connect error, the body is
skipped and `Run` returns nil; on success `consume` is entered, and a
consume error is only logged (line 197) before `Run` returns nil.  When
`consume` blocks forever, so does `Run`. -/
def run (user fqdn : String) (net : AmqpNet) (deliveries : List Delivery) : RunTrace :=
  match (connectAMQP user fqdn net).result with
  | .ok =>
    match consume net deliveries with
    | .returnsErr => ⟨.returns none, true⟩
    | .blocksForever => ⟨.blocksForever, true⟩
  | .err _ => ⟨.returns none, false⟩
  | .panicked => ⟨.panicked, false⟩

/-- Does a `GoVal` hold a string? -/
def strVal (v : GoVal) : Bool :=
  match v with
  | .str _ => true
  | _ => false

/-- The shape `getAction` needs of an entry value to run without a
panic: a mapping whose "package", "status" and "arch" keys hold strings
and whose "action" key holds a mapping all of whose keys and values are
strings. -/
def wellShapedValue (v : GoVal) : Bool :=
  match v with
  | .map fields =>
    strVal (lookupGo fields "package") &&
    strVal (lookupGo fields "status") &&
    strVal (lookupGo fields "arch") &&
    (match lookupGo fields "action" with
     | .map am => am.all (fun p => strVal p.1 && strVal p.2)
     | _ => false)
  | _ => false

/-- A Go map cannot hold a key twice; an association list stands for the
nested action map only when the key "type" occurs at most once. -/
def uniqueTypeKey (v : GoVal) : Bool :=
  match v with
  | .map fields =>
    match lookupGo fields "action" with
    | .map am => decide (am.countP (fun p => keyIs p.1 "type") ≤ 1)
    | _ => false
  | _ => false

/-- A well-shaped single-project entry, as the spec's configuration
format requires: exactly one project key, whose value is well shaped and
represents a genuine Go map for the "type" key. -/
def wellShapedSingle (e : List (String × GoVal)) : Bool :=
  match e with
  | [(_, v)] => wellShapedValue v && uniqueTypeKey v
  | _ => false

/-- The nested `action.type` of an entry, read off the document
structure as the spec describes it: the string under "type" inside the
"action" mapping, the empty string when absent. -/
def entryTypeOf (e : List (String × GoVal)) : String :=
  match e with
  | [(_, .map fields)] =>
    match lookupGo fields "action" with
    | .map am =>
      (match lookupGo am "type" with
       | .str t => t
       | _ => "")
    | _ => ""
  | _ => ""

/-- An entry whose nested `action.type` is a recognized, non-empty type
tag — the counting criterion of the spec's testable property. -/
def recognizedEntry (e : List (String × GoVal)) : Bool :=
  (entryTypeOf e == ACTION_TYPE_CI || entryTypeOf e == ACTION_TYPE_SHELL) &&
    entryTypeOf e != ""

/-- Did an `Except` computation complete without a panic? -/
def exOk {α : Type} (x : Except GoFault α) : Bool :=
  match x with
  | .ok _ => true
  | .error _ => false

/-- The value `actionType` holds after the nested-action-map loop, in
isolation: each pair with string key "type" and a string value
overwrites it, every other pair leaves it unchanged. -/
def foldType (am : List (GoVal × GoVal)) (ty : String) : String :=
  match am with
  | [] => ty
  | (pk, pv) :: rest =>
    match pk, pv with
    | .str s, .str w => if s = "type" then foldType rest w else foldType rest ty
    | _, _ => foldType rest ty

/-- A network environment in which every AMQP call succeeds. -/
def netAllOk : AmqpNet := ⟨true, true, true, true, true, true⟩

/-- A network environment in which the passive exchange declare fails. -/
def netExchFail : AmqpNet := ⟨true, true, false, true, true, true⟩

/-- A sample well-shaped entry value whose action type is "ci-call". -/
def sampleValueCI : GoVal :=
  GoVal.map
    [(GoVal.str "package", GoVal.str "pkgA"),
     (GoVal.str "status", GoVal.str "succeeded"),
     (GoVal.str "arch", GoVal.str "x86_64"),
     (GoVal.str "action",
      GoVal.map [(GoVal.str "type", GoVal.str "ci-call"),
                 (GoVal.str "url", GoVal.str "http://ci.local/hook")])]

/-- A sample configuration entry for project "projA" with a "ci-call"
action. -/
def sampleEntryCI : List (String × GoVal) := [("projA", sampleValueCI)]

/-- A sample well-shaped entry whose action type is unrecognized. -/
def sampleEntryUnknown : List (String × GoVal) :=
  [("projB",
    GoVal.map
      [(GoVal.str "package", GoVal.str "pkgB"),
       (GoVal.str "status", GoVal.str "failed"),
       (GoVal.str "arch", GoVal.str "aarch64"),
       (GoVal.str "action",
        GoVal.map [(GoVal.str "type", GoVal.str "carrier-pigeon")])])]

/-- A sample well-shaped entry whose action definition has no "type"
key. -/
def sampleEntryNoType : List (String × GoVal) :=
  [("projC",
    GoVal.map
      [(GoVal.str "package", GoVal.str "pkgC"),
       (GoVal.str "status", GoVal.str "succeeded"),
       (GoVal.str "arch", GoVal.str "s390x"),
       (GoVal.str "action",
        GoVal.map [(GoVal.str "cmd", GoVal.str "notify.sh")])])]

/-- A sample loaded action for exercising the dispatch loop. -/
def sampleAction : ReactorAction :=
  ⟨⟨"projA", "pkgA", "succeeded", "x86_64", [], "shell"⟩, fun _ => true⟩

/-- A sample delivery. -/
def sampleDelivery : Delivery := ⟨"suse.obs.package.build_success", "payload"⟩

/-! ### Helper lemmas about the loader -/

/-- `assertStr` succeeds exactly on string values. -/
theorem exOk_assertStr (v : GoVal) : exOk (assertStr v) = strVal v := by
  cases v <;> rfl

/-- A value that is not a string makes `assertStr` panic. -/
theorem assertStr_not_str {v : GoVal} (h : strVal v = false) :
    assertStr v = .error .typeAssertion := by
  cases v <;> first | rfl | simp [strVal] at h

/-- A string-holding value can be destructured. -/
theorem strVal_exists {v : GoVal} (h : strVal v = true) : ∃ s, v = GoVal.str s := by
  cases v with
  | str s => exact ⟨s, rfl⟩
  | _ => simp [strVal] at h

/-- The nested-action-map loop completes without a panic exactly when
every key and every value of the map holds a string. -/
theorem exOk_foldActionMap (am : List (GoVal × GoVal)) :
    ∀ ty ps, exOk (foldActionMap am ty ps) =
      am.all (fun p => strVal p.1 && strVal p.2) := by
  induction am with
  | nil => intro ty ps; rfl
  | cons p rest ih =>
    intro ty ps
    obtain ⟨pk, pv⟩ := p
    cases pk with
    | str s =>
      cases pv with
      | str w =>
        by_cases hs : s = "type" <;>
          simp [foldActionMap, assertStr, strVal, hs, ih]
      | int n => simp [foldActionMap, assertStr, strVal, exOk]
      | bool b => simp [foldActionMap, assertStr, strVal, exOk]
      | nil => simp [foldActionMap, assertStr, strVal, exOk]
      | map m => simp [foldActionMap, assertStr, strVal, exOk]
    | int n => simp [foldActionMap, assertStr, strVal, exOk]
    | bool b => simp [foldActionMap, assertStr, strVal, exOk]
    | nil => simp [foldActionMap, assertStr, strVal, exOk]
    | map m => simp [foldActionMap, assertStr, strVal, exOk]

/-- On an all-string action map, the loop returns the `foldType`
action type together with some accumulated parameter map. -/
theorem foldActionMap_all_ok (am : List (GoVal × GoVal)) :
    ∀ ty ps, am.all (fun p => strVal p.1 && strVal p.2) = true →
      ∃ ps2, foldActionMap am ty ps = .ok (foldType am ty, ps2) := by
  induction am with
  | nil => intro ty ps _; exact ⟨ps, rfl⟩
  | cons p rest ih =>
    intro ty ps h
    obtain ⟨pk, pv⟩ := p
    simp only [List.all_cons, Bool.and_eq_true] at h
    obtain ⟨⟨hk, hv⟩, hrest⟩ := h
    obtain ⟨s, rfl⟩ := strVal_exists hk
    obtain ⟨w, rfl⟩ := strVal_exists hv
    by_cases hs : s = "type"
    · simpa [foldActionMap, foldType, assertStr, hs] using ih w ps hrest
    · simpa [foldActionMap, foldType, assertStr, hs] using ih ty (putParam ps s w) hrest

/-- With no "type" key anywhere in the map, the action type is left
unchanged by the loop. -/
theorem foldType_noType (am : List (GoVal × GoVal)) :
    ∀ ty, am.countP (fun p => keyIs p.1 "type") = 0 → foldType am ty = ty := by
  induction am with
  | nil => intro ty _; rfl
  | cons p rest ih =>
    intro ty h
    obtain ⟨pk, pv⟩ := p
    rw [List.countP_cons] at h
    have hk : keyIs pk "type" = false := by
      by_contra hc
      simp [eq_comm (a := true), Bool.not_eq_false] at hc
      simp [hc] at h
    have hrest : rest.countP (fun p => keyIs p.1 "type") = 0 := by
      generalize hc : rest.countP (fun p => keyIs p.1 "type") = c at h ⊢
      simp [hk] at h
      omega
    cases pk with
    | str s =>
      have hs : s ≠ "type" := by simpa [keyIs] using hk
      cases pv <;> simp [foldType, hs, ih _ hrest]
    | int n => simp [foldType, ih _ hrest]
    | bool b => simp [foldType, ih _ hrest]
    | nil => simp [foldType, ih _ hrest]
    | map m => simp [foldType, ih _ hrest]

/-- On an all-string map holding the key "type" at most once (as any
genuine Go map does), the final action type is the looked-up value of
"type", or the initial one when the key is absent. -/
theorem foldType_lookup (am : List (GoVal × GoVal))
    (hstr : am.all (fun p => strVal p.1 && strVal p.2) = true)
    (hu : am.countP (fun p => keyIs p.1 "type") ≤ 1) :
    ∀ ty, foldType am ty =
      (match lookupGo am "type" with
       | .str t => t
       | _ => ty) := by
  induction am with
  | nil => intro ty; rfl
  | cons p rest ih =>
    intro ty
    obtain ⟨pk, pv⟩ := p
    simp only [List.all_cons, Bool.and_eq_true] at hstr
    obtain ⟨⟨hk, hv⟩, hrest⟩ := hstr
    obtain ⟨s, rfl⟩ := strVal_exists hk
    obtain ⟨w, rfl⟩ := strVal_exists hv
    rw [List.countP_cons] at hu
    by_cases hs : s = "type"
    · subst hs
      have hzero : rest.countP (fun p => keyIs p.1 "type") = 0 := by
        generalize hc : rest.countP (fun p => keyIs p.1 "type") = c at hu ⊢
        simp [keyIs] at hu
        omega
      simp [foldType, lookupGo, keyIs, foldType_noType rest _ hzero]
    · have hle : rest.countP (fun p => keyIs p.1 "type") ≤ 1 := by
        omega
      simp [foldType, lookupGo, keyIs, hs, ih hrest hle]

/-- A well-shaped single-project entry destructures into its one key and
its well-shaped value. -/
theorem wellShapedSingle_shape {e : List (String × GoVal)}
    (h : wellShapedSingle e = true) :
    ∃ k v, e = [(k, v)] ∧ wellShapedValue v = true ∧ uniqueTypeKey v = true := by
  rcases e with _ | ⟨⟨k, v⟩, _ | ⟨e2, rest⟩⟩
  · simp [wellShapedSingle] at h
  · simp only [wellShapedSingle, Bool.and_eq_true] at h
    exact ⟨k, v, rfl, h.1, h.2⟩
  · simp [wellShapedSingle] at h

/-- On a well-shaped single-project entry, `getAction` runs without a
panic and its result is governed by the nested `action.type`: an empty
or missing type yields no `ActionInfo`, a non-empty type yields one
carrying that type and the project key. -/
theorem getAction_shaped (k : String) (v : GoVal)
    (hv : wellShapedValue v = true) (hu : uniqueTypeKey v = true) :
    (entryTypeOf [(k, v)] = "" ∧ getAction [(k, v)] = .ok none) ∨
    (entryTypeOf [(k, v)] ≠ "" ∧
      ∃ info, getAction [(k, v)] = .ok (some info) ∧
        info.«Type» = entryTypeOf [(k, v)] ∧ info.Project = k) := by
  cases v with
  | str s => simp [wellShapedValue] at hv
  | int n => simp [wellShapedValue] at hv
  | bool b => simp [wellShapedValue] at hv
  | nil => simp [wellShapedValue] at hv
  | map fields =>
    simp only [wellShapedValue, Bool.and_eq_true] at hv
    obtain ⟨⟨⟨hp, hs⟩, ha⟩, hact⟩ := hv
    obtain ⟨sp, hpe⟩ := strVal_exists hp
    obtain ⟨ss, hse⟩ := strVal_exists hs
    obtain ⟨sa, hae⟩ := strVal_exists ha
    cases hA : lookupGo fields "action" with
    | map am =>
      rw [hA] at hact
      have hcount : am.countP (fun p => keyIs p.1 "type") ≤ 1 := by
        simp only [uniqueTypeKey, hA] at hu
        exact of_decide_eq_true hu
      obtain ⟨ps2, hfold⟩ := foldActionMap_all_ok am "" [] hact
      have hty : foldType am "" =
          (match lookupGo am "type" with
           | .str t => t
           | _ => "") := foldType_lookup am hact hcount ""
      have hety : entryTypeOf [(k, GoVal.map fields)] = foldType am "" := by
        rw [hty]
        simp only [entryTypeOf, hA]
      have hga : getAction [(k, GoVal.map fields)] =
          (if foldType am "" = "" then .ok none
           else .ok (some ⟨k, sp, ss, sa, ps2, foldType am ""⟩)) := by
        simp [getAction, assertMap, hA, hfold, hpe, hse, hae, assertStr]
      by_cases hem : foldType am "" = ""
      · left
        rw [hety, hga, if_pos hem]
        exact ⟨hem, rfl⟩
      · right
        rw [hety, hga, if_neg hem]
        exact ⟨hem, ⟨k, sp, ss, sa, ps2, foldType am ""⟩, rfl, rfl, rfl⟩
    | str s => rw [hA] at hact; simp at hact
    | int n => rw [hA] at hact; simp at hact
    | bool b => rw [hA] at hact; simp at hact
    | nil => rw [hA] at hact; simp at hact

/-! ### The claims -/

/-- C9: getAction is total exactly under the precondition that the
entry value is a mapping whose "package", "status" and "arch" keys hold
strings and whose nested "action" mapping has only string keys and
values; on any entry value violating this shape (missing key or wrong
type) the unchecked type assertions panic — the result is a GoFault —
instead of skipping the record as an invalid one. -/
theorem getAction_total_iff_shape (k : String) (v : GoVal) :
    exOk (getAction [(k, v)]) = true ↔ wellShapedValue v = true := by
  cases v with
  | str s => simp [getAction, assertMap, wellShapedValue, exOk]
  | int n => simp [getAction, assertMap, wellShapedValue, exOk]
  | bool b => simp [getAction, assertMap, wellShapedValue, exOk]
  | nil => simp [getAction, assertMap, wellShapedValue, exOk]
  | map fields =>
    cases hA : lookupGo fields "action" with
    | str s => simp [getAction, assertMap, hA, wellShapedValue, exOk]
    | int n => simp [getAction, assertMap, hA, wellShapedValue, exOk]
    | bool b => simp [getAction, assertMap, hA, wellShapedValue, exOk]
    | nil => simp [getAction, assertMap, hA, wellShapedValue, exOk]
    | map am =>
      cases hF : foldActionMap am "" [] with
      | error f =>
        have hall : am.all (fun p => strVal p.1 && strVal p.2) = false := by
          have h1 := exOk_foldActionMap am "" []
          rw [hF] at h1
          exact h1.symm
        simp [getAction, assertMap, hA, hF, wellShapedValue, hall, exOk]
      | ok pr =>
        obtain ⟨ty, ps⟩ := pr
        have hall : am.all (fun p => strVal p.1 && strVal p.2) = true := by
          have h1 := exOk_foldActionMap am "" []
          rw [hF] at h1
          exact h1.symm
        have hall2 : ∀ a b, (a, b) ∈ am → strVal a = true ∧ strVal b = true := by
          intro a b hab
          have h3 := List.all_eq_true.mp hall ⟨a, b⟩ hab
          simpa [Bool.and_eq_true] using h3
        cases hPe : lookupGo fields "package" with
        | str sp =>
          cases hSe : lookupGo fields "status" with
          | str ss =>
            cases hRe : lookupGo fields "arch" with
            | str sa =>
              by_cases hty : ty = "" <;>
                (simp [getAction, assertMap, hA, hF, hPe, hSe, hRe, assertStr,
                       wellShapedValue, strVal, hty, exOk];
                 exact fun a b hab => hall2 a b hab)
            | int n =>
              simp [getAction, assertMap, hA, hF, hPe, hSe, hRe, assertStr,
                    wellShapedValue, strVal, exOk]
            | bool b =>
              simp [getAction, assertMap, hA, hF, hPe, hSe, hRe, assertStr,
                    wellShapedValue, strVal, exOk]
            | nil =>
              simp [getAction, assertMap, hA, hF, hPe, hSe, hRe, assertStr,
                    wellShapedValue, strVal, exOk]
            | map m =>
              simp [getAction, assertMap, hA, hF, hPe, hSe, hRe, assertStr,
                    wellShapedValue, strVal, exOk]
          | int n =>
            simp [getAction, assertMap, hA, hF, hPe, hSe, assertStr,
                  wellShapedValue, strVal, exOk]
          | bool b =>
            simp [getAction, assertMap, hA, hF, hPe, hSe, assertStr,
                  wellShapedValue, strVal, exOk]
          | nil =>
            simp [getAction, assertMap, hA, hF, hPe, hSe, assertStr,
                  wellShapedValue, strVal, exOk]
          | map m =>
            simp [getAction, assertMap, hA, hF, hPe, hSe, assertStr,
                  wellShapedValue, strVal, exOk]
        | int n =>
          simp [getAction, assertMap, hA, hF, hPe, assertStr,
                wellShapedValue, strVal, exOk]
        | bool b =>
          simp [getAction, assertMap, hA, hF, hPe, assertStr,
                wellShapedValue, strVal, exOk]
        | nil =>
          simp [getAction, assertMap, hA, hF, hPe, assertStr,
                wellShapedValue, strVal, exOk]
        | map m =>
          simp [getAction, assertMap, hA, hF, hPe, assertStr,
                wellShapedValue, strVal, exOk]

/-- C10: getAction examines only the first key of an entry — every
branch of the Go range body returns on the first iteration, so in the
embedding the result does not depend on the remaining keys, which are
silently ignored — and it produces at most one ActionInfo, whose
Project is that first key.  The association-list order stands in for
the Go map iteration order that chooses the key. -/
theorem getAction_first_key_only (k : String) (v : GoVal)
    (rest : List (String × GoVal)) :
    getAction ((k, v) :: rest) = getAction [(k, v)] ∧
    ∀ info, getAction ((k, v) :: rest) = .ok (some info) → info.Project = k := by
  refine ⟨rfl, ?_⟩
  intro info h
  simp only [getAction] at h
  repeat' split at h
  all_goals try simp_all
  all_goals (subst h; rfl)

/-- Witness for the first-key theorem: a second key is ignored and the
loaded info carries the first project key. -/
theorem getAction_first_key_only_witness :
    getAction [("projA", sampleValueCI), ("ignored", GoVal.nil)] =
        getAction [("projA", sampleValueCI)] ∧
    ∀ info, getAction [("projA", sampleValueCI), ("ignored", GoVal.nil)] =
        .ok (some info) → info.Project = "projA" :=
  getAction_first_key_only "projA" sampleValueCI [("ignored", GoVal.nil)]

/-- C1 counterexample: a document whose bytes fail to parse (the
unmarshal error flag is set, nothing was decoded) does not stop the
process — LoadActions continues and finishes having loaded zero
actions, instead of exiting. -/
theorem parse_failure_does_not_exit :
    loadActions (some ⟨true, []⟩) = LoadResult.done 0 [] := rfl

/-- C1 amended: only a configuration file that cannot be read aborts
startup (os.Exit(1)); a document whose bytes cannot be parsed does not
abort — the unmarshal error is merely logged, the loader continues over
whatever entries were decoded (zero or partial actions), and its result
is independent of the unmarshal error flag. -/
theorem read_failure_exits_parse_failure_continues (u : UnmarshalResult) :
    loadActions none = LoadResult.exited ∧
    loadActions (some u) = loadActions (some ⟨false, u.data⟩) ∧
    loadActions (some u) ≠ LoadResult.exited := by
  refine ⟨rfl, rfl, ?_⟩
  rcases hp : processEntries u.data 0 [] with f | ⟨n, acts⟩ <;>
    simp [loadActions, hp]

/-- C2 counterexample: with a successful connect and consumer
registration, the delivery stream ending (the connection dropped, no
deliveries remain) does not end Run: its behaviour is to block forever
on the looper channel. -/
theorem run_blocks_when_stream_ends :
    (run "user" "host" netAllOk []).behavior = RunBehavior.blocksForever := by
  rfl

/-- C2 amended: Run returns (always with nil) exactly when connecting
fails with an error or when the Consume registration call fails; once a
consumer is registered, consume blocks forever receiving from the
looper channel that nothing ever sends to, so a dropped connection (an
ended delivery stream) terminates only the inner dispatch goroutine and
never makes Run return. -/
theorem run_return_behavior (u f : String) (net : AmqpNet) (ds : List Delivery) :
    (run u f net ds).behavior =
      (match (connectAMQP u f net).result with
       | .ok =>
         if net.consumeOk then RunBehavior.blocksForever else RunBehavior.returns none
       | .err _ => RunBehavior.returns none
       | .panicked => RunBehavior.panicked) := by
  cases h : (connectAMQP u f net).result with
  | ok => cases hc : net.consumeOk <;> simp [run, consume, h, hc]
  | err e => simp [run, h]
  | panicked => simp [run, h]

/-- C4: with an empty principal or an empty host, connectAMQP fails at
once with the missing-credentials error and no dial — no network I/O —
is attempted. -/
theorem connect_missing_credentials (u f : String) (net : AmqpNet)
    (h : u = "" ∨ f = "") :
    connectAMQP u f net = ⟨ConnectResult.err ConnectErr.missingCredentials, false⟩ := by
  unfold connectAMQP
  rw [if_pos h]

/-- Witness: connecting with an empty principal fails immediately and
performs no network call. -/
theorem connect_missing_credentials_witness :
    (("" : String) = "" ∨ ("host" : String) = "") ∧
    connectAMQP "" "host" netAllOk =
      ⟨ConnectResult.err ConnectErr.missingCredentials, false⟩ :=
  ⟨Or.inl rfl, connect_missing_credentials "" "host" netAllOk (Or.inl rfl)⟩

/-- C6: when the dial and channel creation succeed but the exchange
declare, queue declare or queue bind fails, connectAMQP returns one of
the corresponding setup errors and Run never enters the consume loop. -/
theorem setup_failure_aborts (u f : String) (net : AmqpNet) (ds : List Delivery)
    (hu : u ≠ "") (hf : f ≠ "") (hd : net.dialOk = true) (hc : net.channelOk = true)
    (h : net.exchangeOk = false ∨ net.queueOk = false ∨ net.bindOk = false) :
    (∃ e, (connectAMQP u f net).result = ConnectResult.err e ∧
       (e = ConnectErr.exchangeFailure ∨ e = ConnectErr.queueFailure ∨
        e = ConnectErr.bindFailure)) ∧
    (run u f net ds).enteredConsume = false := by
  have hcred : ¬(u = "" ∨ f = "") := by
    rintro (h1 | h1)
    exacts [hu h1, hf h1]
  by_cases he : net.exchangeOk = false
  · have hconn : connectAMQP u f net =
        ⟨ConnectResult.err ConnectErr.exchangeFailure, true⟩ := by
      simp [connectAMQP, hcred, hd, hc, he]
    exact ⟨⟨ConnectErr.exchangeFailure, by rw [hconn], Or.inl rfl⟩,
           by simp [run, hconn]⟩
  · by_cases hq : net.queueOk = false
    · have hconn : connectAMQP u f net =
          ⟨ConnectResult.err ConnectErr.queueFailure, true⟩ := by
        simp [connectAMQP, hcred, hd, hc, he, hq]
      exact ⟨⟨ConnectErr.queueFailure, by rw [hconn], Or.inr (Or.inl rfl)⟩,
             by simp [run, hconn]⟩
    · have hb : net.bindOk = false := by
        rcases h with h1 | h1 | h1
        exacts [absurd h1 he, absurd h1 hq, h1]
      have hconn : connectAMQP u f net =
          ⟨ConnectResult.err ConnectErr.bindFailure, true⟩ := by
        simp [connectAMQP, hcred, hd, hc, he, hq, hb]
      exact ⟨⟨ConnectErr.bindFailure, by rw [hconn], Or.inr (Or.inr rfl)⟩,
             by simp [run, hconn]⟩

/-- Witness: a failing exchange declare yields a setup error and the
consume loop is never entered. -/
theorem setup_failure_aborts_witness :
    (netExchFail.exchangeOk = false ∨ netExchFail.queueOk = false ∨
      netExchFail.bindOk = false) ∧
    ((∃ e, (connectAMQP "user" "host" netExchFail).result = ConnectResult.err e ∧
        (e = ConnectErr.exchangeFailure ∨ e = ConnectErr.queueFailure ∨
         e = ConnectErr.bindFailure)) ∧
     (run "user" "host" netExchFail []).enteredConsume = false) :=
  ⟨Or.inl rfl,
   setup_failure_aborts "user" "host" netExchFail [] (by decide) (by decide)
     rfl rfl (Or.inl rfl)⟩

/-- C8: whatever the credentials, the network outcomes and the delivery
stream, Run never hands an error back to its caller: whenever it
returns at all, the returned value is nil. -/
theorem run_never_returns_error (u f : String) (net : AmqpNet)
    (ds : List Delivery) (e : GoError) :
    (run u f net ds).behavior ≠ RunBehavior.returns (some e) := by
  cases h : (connectAMQP u f net).result with
  | ok => cases hc : net.consumeOk <;> simp [run, consume, h, hc]
  | err e2 => simp [run, h]
  | panicked => simp [run, h]

/-- The loading loop over a document of well-shaped single-project
entries: the loaded counter advances by exactly the number of entries
whose nested action.type is recognized, whatever the starting counter
and accumulator. -/
theorem processEntries_count_aux :
    ∀ (entries : List (List (String × GoVal))),
      entries.all wellShapedSingle = true →
      ∀ n acts, ∃ acts2,
        processEntries entries n acts =
          .ok (n + entries.countP recognizedEntry, acts2) := by
  intro entries
  induction entries with
  | nil => intro _ n acts; exact ⟨acts, by simp [processEntries]⟩
  | cons e rest ih =>
    intro h n acts
    simp only [List.all_cons, Bool.and_eq_true] at h
    obtain ⟨he, hrest⟩ := h
    obtain ⟨k, v, rfl, hv, hu⟩ := wellShapedSingle_shape he
    rcases getAction_shaped k v hv hu with ⟨hty, hga⟩ | ⟨hty, info, hga, hT, hPr⟩
    · have hrec : recognizedEntry [(k, v)] = false := by
        unfold recognizedEntry
        rw [hty]
        decide
      have hcnt : ([(k, v)] :: rest).countP recognizedEntry =
          rest.countP recognizedEntry := by
        rw [List.countP_cons, hrec]
        rfl
      obtain ⟨acts2, h2⟩ := ih hrest n acts
      refine ⟨acts2, ?_⟩
      simp only [processEntries, hga]
      rw [h2, hcnt]
    · by_cases hci : info.«Type» = ACTION_TYPE_CI
      · have hety : entryTypeOf [(k, v)] = ACTION_TYPE_CI := hT.symm.trans hci
        have hrec : recognizedEntry [(k, v)] = true := by
          unfold recognizedEntry
          rw [hety]
          decide
        have hcnt : ([(k, v)] :: rest).countP recognizedEntry =
            rest.countP recognizedEntry + 1 := by
          rw [List.countP_cons, hrec]
          rfl
        obtain ⟨acts2, h2⟩ := ih hrest (n + 1) (acts ++ [⟨ActionKind.http, info⟩])
        refine ⟨acts2, ?_⟩
        simp only [processEntries, hga]
        rw [if_pos hci, h2, hcnt]
        have harith : n + 1 + rest.countP recognizedEntry =
            n + (rest.countP recognizedEntry + 1) := by omega
        rw [harith]
      · by_cases hsh : info.«Type» = ACTION_TYPE_SHELL
        · have hety : entryTypeOf [(k, v)] = ACTION_TYPE_SHELL := hT.symm.trans hsh
          have hrec : recognizedEntry [(k, v)] = true := by
            unfold recognizedEntry
            rw [hety]
            decide
          have hcnt : ([(k, v)] :: rest).countP recognizedEntry =
              rest.countP recognizedEntry + 1 := by
            rw [List.countP_cons, hrec]
            rfl
          obtain ⟨acts2, h2⟩ := ih hrest (n + 1) (acts ++ [⟨ActionKind.shell, info⟩])
          refine ⟨acts2, ?_⟩
          simp only [processEntries, hga]
          rw [if_neg hci, if_pos hsh, h2, hcnt]
          have harith : n + 1 + rest.countP recognizedEntry =
              n + (rest.countP recognizedEntry + 1) := by omega
          rw [harith]
        · have hrec : recognizedEntry [(k, v)] = false := by
            unfold recognizedEntry
            rw [← hT]
            simp [hci, hsh]
          have hcnt : ([(k, v)] :: rest).countP recognizedEntry =
              rest.countP recognizedEntry := by
            rw [List.countP_cons, hrec]
            rfl
          obtain ⟨acts2, h2⟩ := ih hrest n acts
          refine ⟨acts2, ?_⟩
          simp only [processEntries, hga]
          rw [if_neg hci, if_neg hsh, h2, hcnt]

/-- C3: for every valid configuration document — an ordered sequence of
well-shaped single-project entries — loading succeeds and the number of
successfully loaded Actions equals the number of top-level entries
whose nested action.type is a recognized ("ci-call" or "shell"),
non-empty value. -/
theorem loadActions_count_recognized (entries : List (List (String × GoVal)))
    (h : entries.all wellShapedSingle = true) :
    ∃ acts, processEntries entries 0 [] =
      .ok (entries.countP recognizedEntry, acts) := by
  simpa using processEntries_count_aux entries h 0 []

/-- Witness: a document of a "ci-call" entry, an unknown-type entry and
a typeless entry loads a count matching its one recognized entry. -/
theorem loadActions_count_recognized_witness :
    ([sampleEntryCI, sampleEntryUnknown, sampleEntryNoType].all wellShapedSingle
      = true) ∧
    ∃ acts,
      processEntries [sampleEntryCI, sampleEntryUnknown, sampleEntryNoType] 0 [] =
        .ok ([sampleEntryCI, sampleEntryUnknown, sampleEntryNoType].countP
              recognizedEntry, acts) :=
  ⟨by decide, loadActions_count_recognized _ (by decide)⟩

/-- C5: a well-shaped entry whose nested action definition has an empty
or missing type yields zero Actions — getAction discards it, returning
neither a panic nor an exit — and the processing of all subsequent
entries is exactly what it would have been without the entry. -/
theorem empty_type_entry_skipped (e : List (String × GoVal))
    (rest : List (List (String × GoVal))) (n : Nat) (acts : List LoadedAction)
    (h : wellShapedSingle e = true) (ht : entryTypeOf e = "") :
    getAction e = .ok none ∧
      processEntries (e :: rest) n acts = processEntries rest n acts := by
  obtain ⟨k, v, rfl, hv, hu⟩ := wellShapedSingle_shape h
  rcases getAction_shaped k v hv hu with ⟨_, h2⟩ | ⟨h1, _⟩
  · exact ⟨h2, by simp [processEntries, h2]⟩
  · exact absurd ht h1

/-- Witness: the typeless sample entry is skipped and loading continues
with the next entry untouched. -/
theorem empty_type_entry_skipped_witness :
    (wellShapedSingle sampleEntryNoType = true ∧
      entryTypeOf sampleEntryNoType = "") ∧
    (getAction sampleEntryNoType = .ok none ∧
      processEntries [sampleEntryNoType, sampleEntryCI] 0 [] =
        processEntries [sampleEntryCI] 0 []) :=
  ⟨⟨by decide, by decide⟩,
   empty_type_entry_skipped sampleEntryNoType [sampleEntryCI] 0 []
     (by decide) (by decide)⟩

/-- C7: the dispatch loop spawns, for each delivery of the stream,
exactly one unit of concurrent work per loaded Action — the trace entry
of the i-th delivery pairs every action, in source order, with that one
shared delivery.  The trace holds unapplied calls: the loop never
evaluates a handler itself, so it proceeds to the next delivery without
waiting and no evaluation of one Action can block another or the
loop. -/
theorem dispatch_one_spawn_per_action (actions : List ReactorAction)
    (ds : List Delivery) (i : Nat) (hi : i < ds.length) :
    (dispatchTrace actions ds).length = ds.length ∧
    ∃ hL : i < (dispatchTrace actions ds).length,
      ((dispatchTrace actions ds).get ⟨i, hL⟩).length = actions.length ∧
      (dispatchTrace actions ds).get ⟨i, hL⟩ =
        actions.map (fun a => (a, ds.get ⟨i, hi⟩)) := by
  have hlen : (dispatchTrace actions ds).length = ds.length := by
    simp [dispatchTrace]
  refine ⟨hlen, by rw [hlen]; exact hi, ?_, ?_⟩ <;>
    simp [dispatchTrace, onDelivery]

/-- Witness: one loaded action and a one-delivery stream yield one
spawned unit pairing that action with that delivery. -/
theorem dispatch_one_spawn_per_action_witness :
    0 < [sampleDelivery].length ∧
    ((dispatchTrace [sampleAction] [sampleDelivery]).length =
        [sampleDelivery].length ∧
     ∃ hL : 0 < (dispatchTrace [sampleAction] [sampleDelivery]).length,
       ((dispatchTrace [sampleAction] [sampleDelivery]).get ⟨0, hL⟩).length =
          [sampleAction].length ∧
       (dispatchTrace [sampleAction] [sampleDelivery]).get ⟨0, hL⟩ =
          [sampleAction].map (fun a => (a, [sampleDelivery].get ⟨0, by decide⟩))) :=
  ⟨by decide,
   dispatch_one_spawn_per_action [sampleAction] [sampleDelivery] 0 (by decide)⟩

end JenkobsReactor
